import Mathlib

/-!
Verification of the core logic of `xiv` (a command-line arXiv search and
download client, `src/xiv.py`) against its specification.

Strings are embedded as `List Char`, file contents as `List Nat` (bytes).
Each definition mirrors one Python function of the source; the network,
filesystem and XML collaborators are abstracted as explicit inputs
(attempt-indexed fetch outcomes, pre-parsed feed entries), exactly at the
boundaries the specification draws in its external-interfaces section.
-/

namespace Xiv

/-- Whitespace characters of Python's `str.strip` / regex `\s`, restricted to
the ASCII range (the source only strips feed text and user-typed index
specifications). -/
def pyIsSpace (c : Char) : Bool :=
  c = ' ' || c = '\t' || c = '\n' || c = '\r' || c = '\x0b' || c = '\x0c'

/-- Python `str.strip()`: drop leading and trailing whitespace. -/
def pyStrip (s : List Char) : List Char :=
  ((s.dropWhile pyIsSpace).reverse.dropWhile pyIsSpace).reverse

/-- Numeric value of an ASCII decimal digit. -/
def digitVal (c : Char) : Nat := c.toNat - 48

/-- Accumulating decimal parse of the remaining digits; fails on the first
non-digit character. -/
def pyDigitsAux : Nat → List Char → Option Nat
  | acc, [] => some acc
  | acc, c :: cs => if c.isDigit then pyDigitsAux (acc * 10 + digitVal c) cs else none

/-- Decimal parse of a nonempty all-digit string. -/
def pyDigits : List Char → Option Nat
  | [] => none
  | c :: cs => if c.isDigit then pyDigitsAux (digitVal c) cs else none

/-- Models Python `int(str)` on ASCII decimal strings: surrounding whitespace
and one optional sign are tolerated, anything else (empty string, stray
characters, a dot as in a float literal) raises `ValueError`, modelled as
`none`. -/
def pyInt (s : List Char) : Option Int :=
  match pyStrip s with
  | '+' :: rest => (pyDigits rest).map (fun n => (n : Int))
  | '-' :: rest => (pyDigits rest).map (fun n => -(n : Int))
  | t => (pyDigits t).map (fun n => (n : Int))

/-- Python's `set.add`, with the set represented as a duplicate-free list
(the order of the representation never leaks: `parse_indices` sorts before
returning). -/
def setInsert (x : Int) (l : List Int) : List Int := if x ∈ l then l else x :: l

/-- The integers of Python's `range(start_idx, end_idx + 1)`. -/
def intRange (start_idx end_idx : Int) : List Int :=
  (List.range (end_idx + 1 - start_idx).toNat).map
    (fun (k : Nat) => start_idx + (k : Int))

/-- Python's `set.update(range(start_idx, end_idx + 1))` on the list-backed
set representation. -/
def setUpdateRange (l : List Int) (start_idx end_idx : Int) : List Int :=
  (intRange start_idx end_idx).foldl (fun acc x => setInsert x acc) l

/-- One comma-separated token of the loop body of `parse_indices`
(src/xiv.py:336-348): strip it, parse it as a single 1-based index or a
1-based inclusive `start-end` range (split at the first dash, as
`part.split('-', 1)` does), convert to 0-based, range-check, and union the
resulting indices into the accumulated set. Any failure aborts with `none`. -/
def parseToken (total : Int) (indices : List Int) (part0 : List Char) :
    Option (List Int) :=
  let part := pyStrip part0
  if part.contains '-' then
    match pyInt (part.takeWhile (fun c => c ≠ '-')),
          pyInt ((part.dropWhile (fun c => c ≠ '-')).tail) with
    | some s, some e =>
      let start_idx := s - 1
      let end_idx := e - 1
      if start_idx < 0 ∨ total ≤ end_idx ∨ end_idx < start_idx then none
      else some (setUpdateRange indices start_idx end_idx)
    | _, _ => none
  else
    match pyInt part with
    | some v =>
      let idx := v - 1
      if idx < 0 ∨ total ≤ idx then none else some (setInsert idx indices)
    | none => none

/-- `parse_indices` (src/xiv.py:330-351): parse an index specification such
as `1,3-5,8` into the sorted list of distinct 0-based indices, or `none` when
the spec is empty or any token fails to parse or to range-check. Python's
`sorted` is modelled by insertion sort. -/
def parse_indices (spec : List Char) (total : Int) : Option (List Int) :=
  if spec.isEmpty then none
  else
    ((spec.splitOn ',').foldlM (parseToken total) ([] : List Int)).map
      (fun s => s.insertionSort (· ≤ ·))

/-- ASCII lower-casing of one character, as Python's `str.lower` /
`bytes.lower` act on the ASCII range (error strings and sniffed file bytes in
this program are ASCII). -/
def pyLower (c : Char) : Char :=
  if 'A' ≤ c ∧ c ≤ 'Z' then Char.ofNat (c.toNat + 32) else c

/-- Python `needle in haystack` on strings: contiguous-substring test. -/
def strContains (haystack needle : List Char) : Bool := decide (needle <:+: haystack)

/-- `is_retryable_error` (src/xiv.py:150-153): the error's textual form,
lower-cased, contains one of the substrings `503`, `502`, `504`, `timeout`. -/
def is_retryable_error (e : List Char) : Bool :=
  let s := e.map pyLower
  strContains s "503".toList || strContains s "502".toList ||
    strContains s "504".toList || strContains s "timeout".toList

/-- Observable trace of one `retry_with_backoff` run: the returned value
(`none` is Python's `None` sentinel), the durations slept between attempts in
order, and how many times the operation was invoked. -/
structure RetryTrace (α : Type) where
  result : Option α
  sleeps : List Nat
  calls : Nat
deriving DecidableEq

/-- The retry loop of `retry_with_backoff` (src/xiv.py:155-172) from attempt
`i` on, with `fuel` loop iterations left (the caller passes `fuel = n - i`;
an exhausted fuel is Python's `for` loop falling off the end, which returns
`None` having invoked nothing). `op i` is what `operation()` does on its
`i`-th invocation: a value, or an exception rendered as a string. -/
def retryAux {α : Type} (op : Nat → Except (List Char) α) (n : Nat) :
    Nat → Nat → RetryTrace α
  | 0, _ => ⟨none, [], 0⟩
  | fuel + 1, i =>
    match op i with
    | .ok a => ⟨some a, [], 1⟩
    | .error e =>
      if i < n - 1 ∧ is_retryable_error e = true then
        let r := retryAux op n fuel (i + 1)
        ⟨r.result, 2 ^ i :: r.sleeps, r.calls + 1⟩
      else ⟨none, [], 1⟩

/-- `retry_with_backoff` (src/xiv.py:155-172) with attempt budget `n`
(`DEFAULT_RETRY_ATTEMPTS`, default 3): run the operation up to `n` times,
sleeping `2 ^ attempt` seconds after each retryable non-final failure, and
return `none` (never re-raise) when it gives up. -/
def retry_with_backoff {α : Type} (op : Nat → Except (List Char) α) (n : Nat) :
    RetryTrace α :=
  retryAux op n n 0

/-- `MIN_VALID_PDF_SIZE` (src/xiv.py:32). -/
def MIN_VALID_PDF_SIZE : Nat := 100000

/-- `CAPTCHA_CHECK_BYTES` (src/xiv.py:33). -/
def CAPTCHA_CHECK_BYTES : Nat := 1024

/-- ASCII lower-casing of one byte, as Python's `bytes.lower`. -/
def byteLower (b : Nat) : Nat := if 65 ≤ b ∧ b ≤ 90 then b + 32 else b

/-- The byte sequence `<html`. -/
def htmlMarker : List Nat := "<html".toList.map Char.toNat

/-- The byte sequence `captcha`. -/
def captchaMarker : List Nat := "captcha".toList.map Char.toNat

/-- The byte sequence `<!doctype`. -/
def doctypeMarker : List Nat := "<!doctype".toList.map Char.toNat

/-- `is_captcha` (src/xiv.py:219-225), the content validator: a file (its
bytes; `os.path.getsize` is its length) is flagged as a CAPTCHA/block page
iff it is smaller than `MIN_VALID_PDF_SIZE` and its first
`CAPTCHA_CHECK_BYTES` bytes, lower-cased, contain one of the three HTML
markers. -/
def is_captcha (file : List Nat) : Bool :=
  if MIN_VALID_PDF_SIZE ≤ file.length then false
  else
    let content := (file.take CAPTCHA_CHECK_BYTES).map byteLower
    decide (htmlMarker <:+: content) || decide (captchaMarker <:+: content) ||
      decide (doctypeMarker <:+: content)

/-- One `entry` element of the Atom feed, as the record extractor reads it:
the text of its `published`, `title`, `id` and `summary` children and the
ordered author display names (the XML transport itself is the external
collaborator). -/
structure Entry where
  published : List Char
  authors : List (List Char)
  title : List Char
  link : List Char
  summary : List Char
deriving DecidableEq

/-- One paper record, the five fields built at src/xiv.py:210-216. -/
structure Paper where
  title : List Char
  authors : List Char
  published : List Char
  link : List Char
  abstract : List Char
deriving DecidableEq

/-- Python `sep.join(parts)`. -/
def joinSep (sep : List Char) : List (List Char) → List Char
  | [] => []
  | [x] => x
  | x :: xs => x ++ sep ++ joinSep sep xs

/-- Collapse each run of consecutive spaces to a single space. -/
def collapseRuns : List Char → List Char
  | [] => []
  | [c] => [c]
  | a :: b :: rest =>
    if a = ' ' ∧ b = ' ' then collapseRuns (b :: rest)
    else a :: collapseRuns (b :: rest)

/-- Python `re.sub(r'\s+', ' ', text.strip())` (src/xiv.py:211,215): strip,
then replace every maximal whitespace run by one space. -/
def normalize_ws (s : List Char) : List Char :=
  collapseRuns ((pyStrip s).map (fun c => if pyIsSpace c then ' ' else c))

/-- Python `'%d' % n`: decimal rendering of the author count. -/
def natDecimal (n : Nat) : List Char := Nat.toDigits 10 n

/-- The author summary of src/xiv.py:205-208: join the first `maxAuthors`
names with `, `; when more authors exist, append ` et al. (<total>)` with the
true total count. -/
def author_display (authors : List (List Char)) (maxAuthors : Nat) : List Char :=
  let author_str := joinSep ", ".toList (authors.take maxAuthors)
  if maxAuthors < authors.length then
    author_str ++ " et al. (".toList ++ natDecimal authors.length ++ ")".toList
  else author_str

/-- `DATE_PREFIX_LENGTH` (src/xiv.py:34). -/
def DATE_PREFIX_LENGTH : Nat := 10

/-- The record built from one feed entry (src/xiv.py:201,205-216): normalized
title and abstract, summarized authors, the published timestamp truncated to
its first 10 characters, and the entry's id as link. -/
def entry_record (maxAuthors : Nat) (e : Entry) : Paper :=
  { title := normalize_ws e.title
    authors := author_display e.authors maxAuthors
    published := e.published.take DATE_PREFIX_LENGTH
    link := e.link
    abstract := normalize_ws e.summary }

/-- Python string `<`: lexicographic comparison by code point. -/
def pyStrLt : List Char → List Char → Bool
  | [], [] => false
  | [], _ :: _ => true
  | _ :: _, [] => false
  | a :: as, b :: bs => if a < b then true else if b < a then false else pyStrLt as bs

/-- The entry loop of `search` (src/xiv.py:199-217): walk the feed entries in
document order; when a `since` cutoff is supplied (Python `if since and pub <
since`, where `since = none` models a falsy `since`), skip every entry whose
truncated date sorts lexicographically before it; turn each kept entry into a
record. -/
def extract_records (entries : List Entry) (since : Option (List Char))
    (maxAuthors : Nat) : List Paper :=
  entries.filterMap (fun e =>
    match since with
    | some s =>
      if pyStrLt (e.published.take DATE_PREFIX_LENGTH) s then none
      else some (entry_record maxAuthors e)
    | none => some (entry_record maxAuthors e))

/-- `search` (src/xiv.py:174-217) with its two external collaborators made
explicit: `op` is what each invocation of `fetch_xml` does (returns the XML
text or raises), and `parseFeed` is `xml.etree.ElementTree` turning XML text
into feed entries (`none` = the text does not parse, which Python propagates
as an exception, modelled as `.error ()`). A fetch that the retry engine
gives up on, or an empty response (Python `if not xml`), yields `.ok []`. -/
def search_model (op : Nat → Except (List Char) (List Char)) (n : Nat)
    (parseFeed : List Char → Option (List Entry)) (since : Option (List Char))
    (maxAuthors : Nat) : Except Unit (List Paper) :=
  match (retry_with_backoff op n).result with
  | none => .ok []
  | some xml =>
    if xml.isEmpty then .ok []
    else
      match parseFeed xml with
      | none => .error ()
      | some entries => .ok (extract_records entries since maxAuthors)

/-- What one invocation of `fetch_pdf` (src/xiv.py:242-254) does to the
target path, seen from outside: it either runs to the point of having written
the full document `writes c`, or raises with error text `e` leaving
`leftover` at the path (`none` when it raised before creating the file;
`some partial` when the write was cut short). -/
inductive FetchOutcome where
  | writes : List Nat → FetchOutcome
  | fails : List Char → Option (List Nat) → FetchOutcome
deriving DecidableEq

/-- The tri-state result of `download` (src/xiv.py:227-279): Python's
`True`, `'captcha'`, `False`. -/
inductive DownloadResult where
  | success
  | captcha
  | failure
deriving DecidableEq

/-- The retry loop of `download` (src/xiv.py:256-279) from attempt `i` with
`fuel = n - i` iterations left, tracking the file at the item's target path.
On a fetched file that the content validator flags, the file is removed and
the item ends `captcha`; on a raised fetch, `if os.path.exists(path):
os.remove(path)` clears whatever the attempt left before retrying or giving
up. -/
def download_aux (outcomes : Nat → FetchOutcome) (n : Nat) :
    Nat → Nat → Option (List Nat) → DownloadResult × Option (List Nat)
  | 0, _, file => (.failure, file)
  | fuel + 1, i, _file =>
    match outcomes i with
    | .writes c =>
      if is_captcha c then (.captcha, none)
      else (.success, some c)
    | .fails e _leftover =>
      if i < n - 1 ∧ is_retryable_error e = true then
        download_aux outcomes n fuel (i + 1) none
      else (.failure, none)

/-- `download` (src/xiv.py:227-279) for one item, abstracted over the
attempt-indexed fetch outcomes and the file initially at the target path:
returns the item's outcome and the file left at the target path. -/
def download_model (outcomes : Nat → FetchOutcome) (n : Nat)
    (initialFile : Option (List Nat)) : DownloadResult × Option (List Nat) :=
  download_aux outcomes n n 0 initialFile

/-- Lower-case hexadecimal digit character for `d < 16`. -/
def hexDigit (d : Nat) : Char :=
  if d < 10 then Char.ofNat (48 + d) else Char.ofNat (87 + d)

/-- JSON escaping of one character, as `json.dumps` performs it with
`ensure_ascii=False`: escape the quote, the backslash and every control
character below 0x20 (named escapes for backspace, tab, newline, form feed,
carriage return; `\u00xx` with lower-case hex otherwise); every other
character, non-ASCII included, passes through verbatim. -/
def escapeChar (c : Char) : List Char :=
  if c = '"' then ['\\', '"']
  else if c = '\\' then ['\\', '\\']
  else if c = '\n' then ['\\', 'n']
  else if c = '\t' then ['\\', 't']
  else if c = '\r' then ['\\', 'r']
  else if c = '\x08' then ['\\', 'b']
  else if c = '\x0c' then ['\\', 'f']
  else if c.toNat < 32 then
    ['\\', 'u', '0', '0', hexDigit (c.toNat / 16), hexDigit (c.toNat % 16)]
  else [c]

/-- JSON escaping of a whole string. -/
def escapeList : List Char → List Char
  | [] => []
  | c :: cs => escapeChar c ++ escapeList cs

/-- A JSON string literal: quote, escaped contents, quote. -/
def serString (s : List Char) : List Char := '"' :: (escapeList s ++ ['"'])

/-- One `"key": "value"` member line at object indent 4. -/
def serField (key value : List Char) : List Char :=
  "    ".toList ++ serString key ++ ": ".toList ++ serString value

/-- One record as `json.dumps` renders it at indent 2 inside the array: the
five fields in their insertion order (src/xiv.py:210-216). -/
def serPaper (p : Paper) : List Char :=
  "  \x7b\n".toList ++
    serField "title".toList p.title ++ ",\n".toList ++
    serField "authors".toList p.authors ++ ",\n".toList ++
    serField "published".toList p.published ++ ",\n".toList ++
    serField "link".toList p.link ++ ",\n".toList ++
    serField "abstract".toList p.abstract ++ "\n  \x7d".toList

/-- The remaining array items, each preceded by the `,\n` item separator. -/
def serPapersRest : List Paper → List Char
  | [] => []
  | p :: ps => ",\n".toList ++ serPaper p ++ serPapersRest ps

/-- The `json` style of `format_papers` (src/xiv.py:296-297):
`json.dumps(papers, indent=2, ensure_ascii=False)`. -/
def format_json : List Paper → List Char
  | [] => "[]".toList
  | p :: ps => "[\n".toList ++ serPaper p ++ serPapersRest ps ++ "\n]".toList

/-- Value of one hexadecimal digit character. -/
def parseHexDigit (c : Char) : Option Nat :=
  if '0' ≤ c ∧ c ≤ '9' then some (c.toNat - 48)
  else if 'a' ≤ c ∧ c ≤ 'f' then some (c.toNat - 87)
  else if 'A' ≤ c ∧ c ≤ 'F' then some (c.toNat - 55)
  else none

/-- The character named by a single-letter JSON escape. -/
def unescape1 (e : Char) : Option Char :=
  if e = '"' then some '"'
  else if e = '\\' then some '\\'
  else if e = '/' then some '/'
  else if e = 'n' then some '\n'
  else if e = 't' then some '\t'
  else if e = 'r' then some '\r'
  else if e = 'b' then some '\x08'
  else if e = 'f' then some '\x0c'
  else none

/-- Parse the body of a JSON string up to its closing quote, undoing the
escapes; returns the decoded string and the remaining input. Unescaped
control characters are invalid, and surrogate code points are rejected (the
serializer never produces them). -/
def parseStringBody : List Char → Option (List Char × List Char)
  | [] => none
  | c :: rest =>
    if c = '"' then some ([], rest)
    else if c = '\\' then
      match rest with
      | 'u' :: h1 :: h2 :: h3 :: h4 :: rest2 =>
        match parseHexDigit h1, parseHexDigit h2, parseHexDigit h3, parseHexDigit h4 with
        | some a, some b, some c2, some d =>
          let v := ((a * 16 + b) * 16 + c2) * 16 + d
          if v < 55296 ∨ 57343 < v then
            (parseStringBody rest2).map (fun pr => (Char.ofNat v :: pr.1, pr.2))
          else none
        | _, _, _, _ => none
      | e :: rest2 =>
        match unescape1 e with
        | some ch => (parseStringBody rest2).map (fun pr => (ch :: pr.1, pr.2))
        | none => none
      | [] => none
    else if c.toNat < 32 then none
    else (parseStringBody rest).map (fun pr => (c :: pr.1, pr.2))

/-- Consume an expected literal from the front of the input. -/
def expectLit : List Char → List Char → Option (List Char)
  | [], input => some input
  | _ :: _, [] => none
  | c :: cs, d :: input => if c = d then expectLit cs input else none

/-- Parse one `    "key": "value"` member line followed by the separator
`sep`, returning the decoded value and the remaining input. -/
def parseField (key sep input : List Char) : Option (List Char × List Char) :=
  (expectLit ("    \"".toList ++ key ++ "\": \"".toList) input).bind fun r1 =>
  (parseStringBody r1).bind fun vr =>
  (expectLit sep vr.2).map fun r3 => (vr.1, r3)

/-- Parse one record object of the structured output: the five known fields
in their serialized order. -/
def parsePaper (input : List Char) : Option (Paper × List Char) :=
  (expectLit "  \x7b\n".toList input).bind fun r0 =>
  (parseField "title".toList ",\n".toList r0).bind fun tr =>
  (parseField "authors".toList ",\n".toList tr.2).bind fun ar =>
  (parseField "published".toList ",\n".toList ar.2).bind fun pr =>
  (parseField "link".toList ",\n".toList pr.2).bind fun lr =>
  (parseField "abstract".toList "\n  \x7d".toList lr.2).map fun br =>
    (⟨tr.1, ar.1, pr.1, lr.1, br.1⟩, br.2)

/-- Parse the remaining array items: either the closing `\n]` (which must end
the document) or a `,\n` separator followed by another record. `fuel` bounds
the recursion; callers pass more fuel than items can remain. -/
def parseMorePapers : Nat → List Char → Option (List Paper)
  | 0, _ => none
  | fuel + 1, input =>
    match expectLit "\n]".toList input with
    | some rest => if rest.isEmpty then some [] else none
    | none =>
      (expectLit ",\n".toList input).bind fun r1 =>
      (parsePaper r1).bind fun pr =>
      (parseMorePapers fuel pr.2).map (fun ps => pr.1 :: ps)

/-- Parser for the structured output style: the inverse reading of
`format_json`, as `json.loads` reads the serialized record list back. -/
def parse_format_json (input : List Char) : Option (List Paper) :=
  if input = "[]".toList then some []
  else
    (expectLit "[\n".toList input).bind fun r0 =>
    (parsePaper r0).bind fun pr =>
    (parseMorePapers (pr.2.length + 1) pr.2).map (fun ps => pr.1 :: ps)

/-! Lemmas about the list-backed set operations of the index selector. -/

theorem mem_setInsert (y x : Int) (l : List Int) :
    y ∈ setInsert x l ↔ y = x ∨ y ∈ l := by
  unfold setInsert
  split
  · next h => exact ⟨Or.inr, fun h' => h'.elim (fun hyx => hyx ▸ h) id⟩
  · exact List.mem_cons

theorem nodup_setInsert (x : Int) (l : List Int) (h : l.Nodup) :
    (setInsert x l).Nodup := by
  unfold setInsert
  split
  · exact h
  · next hx => exact List.nodup_cons.mpr ⟨hx, h⟩

theorem setInsert_ne_nil (x : Int) (l : List Int) : setInsert x l ≠ [] := by
  unfold setInsert
  split
  · next h => exact List.ne_nil_of_mem h
  · exact List.cons_ne_nil _ _

theorem mem_foldl_setInsert (xs : List Int) (y : Int) :
    ∀ l, (y ∈ xs.foldl (fun acc x => setInsert x acc) l ↔ y ∈ l ∨ y ∈ xs) := by
  induction xs with
  | nil => simp
  | cons x xs ih =>
    intro l
    rw [List.foldl_cons, ih, mem_setInsert]
    simp only [List.mem_cons]
    tauto

theorem nodup_foldl_setInsert (xs : List Int) :
    ∀ l, l.Nodup → (xs.foldl (fun acc x => setInsert x acc) l).Nodup := by
  induction xs with
  | nil => exact fun l h => h
  | cons x xs ih => exact fun l h => ih _ (nodup_setInsert x l h)

theorem mem_intRange (x s e : Int) (hx : x ∈ intRange s e) : s ≤ x ∧ x ≤ e := by
  unfold intRange at hx
  simp only [List.mem_map, List.mem_range] at hx
  obtain ⟨k, hk, hfk⟩ := hx
  have hfk' : s + (k : Int) = x := hfk
  omega

theorem start_mem_intRange (s e : Int) (h : s ≤ e) : s ∈ intRange s e := by
  unfold intRange
  refine List.mem_map.mpr ⟨0, List.mem_range.mpr ?_, ?_⟩
  · omega
  · simp

theorem mem_setUpdateRange (y : Int) (l : List Int) (s e : Int) :
    y ∈ setUpdateRange l s e ↔ y ∈ l ∨ y ∈ intRange s e := by
  unfold setUpdateRange
  exact mem_foldl_setInsert _ y l

theorem nodup_setUpdateRange (l : List Int) (s e : Int) (h : l.Nodup) :
    (setUpdateRange l s e).Nodup :=
  nodup_foldl_setInsert _ l h

theorem setUpdateRange_ne_nil (l : List Int) (s e : Int) (h : s ≤ e) :
    setUpdateRange l s e ≠ [] :=
  List.ne_nil_of_mem ((mem_setUpdateRange s l s e).mpr
    (Or.inr (start_mem_intRange s e h)))

/-! Lemmas about one token of the index selector. -/

theorem parseToken_mem (total : Int) (acc : List Int) (part : List Char)
    (s : List Int) (h : parseToken total acc part = some s) :
    ∀ x ∈ s, x ∈ acc ∨ (0 ≤ x ∧ x < total) := by
  simp only [parseToken] at h
  split at h
  · split at h
    · split at h
      · exact absurd h (by simp)
      · next hcond =>
        obtain rfl := Option.some_injective _ h
        intro x hx
        rcases (mem_setUpdateRange x acc _ _).mp hx with hacc | hrange
        · exact Or.inl hacc
        · have := mem_intRange x _ _ hrange
          exact Or.inr (by omega)
    · exact absurd h (by simp)
  · split at h
    · split at h
      · exact absurd h (by simp)
      · next hcond =>
        obtain rfl := Option.some_injective _ h
        intro x hx
        rcases (mem_setInsert x _ acc).mp hx with rfl | hacc
        · exact Or.inr (by omega)
        · exact Or.inl hacc
    · exact absurd h (by simp)

theorem parseToken_nodup (total : Int) (acc : List Int) (part : List Char)
    (s : List Int) (hacc : acc.Nodup) (h : parseToken total acc part = some s) :
    s.Nodup := by
  simp only [parseToken] at h
  split at h
  · split at h
    · split at h
      · exact absurd h (by simp)
      · obtain rfl := Option.some_injective _ h
        exact nodup_setUpdateRange acc _ _ hacc
    · exact absurd h (by simp)
  · split at h
    · split at h
      · exact absurd h (by simp)
      · obtain rfl := Option.some_injective _ h
        exact nodup_setInsert _ acc hacc
    · exact absurd h (by simp)

theorem parseToken_ne_nil (total : Int) (acc : List Int) (part : List Char)
    (s : List Int) (h : parseToken total acc part = some s) : s ≠ [] := by
  simp only [parseToken] at h
  split at h
  · split at h
    · split at h
      · exact absurd h (by simp)
      · next hcond =>
        obtain rfl := Option.some_injective _ h
        exact setUpdateRange_ne_nil acc _ _ (by omega)
    · exact absurd h (by simp)
  · split at h
    · split at h
      · exact absurd h (by simp)
      · obtain rfl := Option.some_injective _ h
        exact setInsert_ne_nil _ acc
    · exact absurd h (by simp)

theorem parseToken_none_congr (total : Int) (acc acc' : List Int)
    (part : List Char) :
    parseToken total acc part = none ↔ parseToken total acc' part = none := by
  simp only [parseToken]
  split
  · split
    · split <;> simp
    · simp
  · split
    · split <;> simp
    · simp

/-! Lemmas about the fold of `parse_indices` over the comma-separated
tokens. -/

theorem foldlM_parseToken_none (total : Int) (parts : List (List Char)) :
    ∀ acc, (∃ p ∈ parts, parseToken total [] p = none) →
      parts.foldlM (parseToken total) acc = none := by
  induction parts with
  | nil => simp
  | cons q rest ih =>
    rintro acc ⟨p, hp, hnone⟩
    rw [List.foldlM_cons]
    rcases List.mem_cons.mp hp with rfl | hp'
    · have hq : parseToken total acc p = none :=
        (parseToken_none_congr total [] acc p).mp hnone
      simp [hq]
    · cases hq : parseToken total acc q with
      | none => simp
      | some s₁ =>
        simpa using ih s₁ ⟨p, hp', hnone⟩

theorem foldlM_parseToken_bounds (total : Int) (parts : List (List Char)) :
    ∀ acc s, (∀ x ∈ acc, 0 ≤ x ∧ x < total) →
      parts.foldlM (parseToken total) acc = some s →
      ∀ x ∈ s, 0 ≤ x ∧ x < total := by
  induction parts with
  | nil =>
    intro acc s hacc h
    obtain rfl : acc = s := by simpa using h
    exact hacc
  | cons q rest ih =>
    intro acc s hacc h
    rw [List.foldlM_cons] at h
    cases hq : parseToken total acc q with
    | none => rw [hq] at h; exact absurd h (by simp)
    | some s₁ =>
      rw [hq] at h
      simp only [Option.bind_eq_bind, Option.some_bind] at h
      exact ih s₁ s
        (fun x hx => ((parseToken_mem total acc q s₁ hq x hx).elim (hacc x) id)) h

theorem foldlM_parseToken_nodup (total : Int) (parts : List (List Char)) :
    ∀ acc s, acc.Nodup → parts.foldlM (parseToken total) acc = some s →
      s.Nodup := by
  induction parts with
  | nil =>
    intro acc s hacc h
    obtain rfl : acc = s := by simpa using h
    exact hacc
  | cons q rest ih =>
    intro acc s hacc h
    rw [List.foldlM_cons] at h
    cases hq : parseToken total acc q with
    | none => rw [hq] at h; exact absurd h (by simp)
    | some s₁ =>
      rw [hq] at h
      simp only [Option.bind_eq_bind, Option.some_bind] at h
      exact ih s₁ s (parseToken_nodup total acc q s₁ hacc hq) h

theorem foldlM_parseToken_ne_nil (total : Int) (parts : List (List Char)) :
    ∀ acc s, parts ≠ [] → parts.foldlM (parseToken total) acc = some s →
      s ≠ [] := by
  induction parts with
  | nil => intro _ _ h; exact absurd rfl h
  | cons q rest ih =>
    intro acc s _ h
    rw [List.foldlM_cons] at h
    cases hq : parseToken total acc q with
    | none => rw [hq] at h; exact absurd h (by simp)
    | some s₁ =>
      rw [hq] at h
      simp only [Option.bind_eq_bind, Option.some_bind] at h
      rcases List.eq_nil_or_concat rest with rfl | _
      · obtain rfl : s₁ = s := by simpa using h
        exact parseToken_ne_nil total acc q _ hq
      · exact ih s₁ s (by rintro rfl; simp_all) h

/-- C1: for every index specification string and every total, a non-null
result of `parse_indices` is strictly ascending, duplicate-free, and every
index in it lies in `[0, total)` — whatever duplicate or out-of-order tokens
the specification held. -/
theorem parse_indices_sorted_bounded (spec : List Char) (total : Int)
    (l : List Int) (h : parse_indices spec total = some l) :
    List.Sorted (· < ·) l ∧ l.Nodup ∧ ∀ i ∈ l, 0 ≤ i ∧ i < total := by
  simp only [parse_indices] at h
  split at h
  · exact absurd h (by simp)
  · rw [Option.map_eq_some'] at h
    obtain ⟨s, hs, rfl⟩ := h
    have hperm := List.perm_insertionSort (α := Int) (· ≤ ·) s
    have hnodup : (s.insertionSort (· ≤ ·)).Nodup :=
      hperm.nodup_iff.mpr
        (foldlM_parseToken_nodup total _ [] s List.nodup_nil hs)
    refine ⟨?_, hnodup, ?_⟩
    · exact (List.sorted_insertionSort (· ≤ ·) s).lt_of_le hnodup
    · intro i hi
      exact foldlM_parseToken_bounds total _ [] s (by simp) hs i
        (hperm.mem_iff.mp hi)

/-- Witness for C1 at the specification's own example: `"5,3,1,4,2"` with
total 5 parses to `[0, 1, 2, 3, 4]`, which is strictly ascending,
duplicate-free and bounded by the total. -/
theorem parse_indices_sorted_bounded_witness :
    parse_indices ("5,3,1,4,2".toList) 5 = some [0, 1, 2, 3, 4] ∧
      (List.Sorted (· < ·) [(0 : Int), 1, 2, 3, 4] ∧
        List.Nodup [(0 : Int), 1, 2, 3, 4] ∧
        ∀ i ∈ [(0 : Int), 1, 2, 3, 4], 0 ≤ i ∧ i < 5) :=
  ⟨by decide, parse_indices_sorted_bounded ("5,3,1,4,2".toList) 5 _ (by decide)⟩

/-- C2: a specification containing any invalid token — one that fails to
parse as an integer or range, or fails the range checks — makes the whole
call return the null sentinel; no partial list is ever returned. (An empty
specification is the token `""`, which is itself invalid.) -/
theorem parse_indices_invalid_none (spec : List Char) (total : Int)
    (h : ∃ part ∈ spec.splitOn ',', parseToken total [] part = none) :
    parse_indices spec total = none := by
  simp only [parse_indices]
  split
  · rfl
  · rw [foldlM_parseToken_none total _ [] h]
    rfl

/-- Witness for C2: `"1,7"` against total 5 contains the out-of-range token
`7`, and the whole call returns the sentinel even though `1` is valid. -/
theorem parse_indices_invalid_none_witness :
    parse_indices ("1,7".toList) 5 = none :=
  parse_indices_invalid_none ("1,7".toList) 5 (by decide)

/-- C10: a non-null `parse_indices` result is never the empty list: every
comma-separated token either contributes at least one index or fails the
whole call, so a parsed selection can never be an empty (falsy) list that
`download_papers` would silently treat as "download everything". -/
theorem parse_indices_some_ne_nil (spec : List Char) (total : Int)
    (l : List Int) (h : parse_indices spec total = some l) : l ≠ [] := by
  simp only [parse_indices] at h
  split at h
  · exact absurd h (by simp)
  · rw [Option.map_eq_some'] at h
    obtain ⟨s, hs, rfl⟩ := h
    have hsplit : spec.splitOn ',' ≠ [] := by
      simp only [List.splitOn]
      exact List.splitOnP_ne_nil _ spec
    have hne := foldlM_parseToken_ne_nil total _ [] s hsplit hs
    intro hcontra
    apply hne
    have hlen := congrArg List.length hcontra
    rw [List.length_insertionSort] at hlen
    exact List.eq_nil_of_length_eq_zero (by simpa using hlen)

/-- Witness for C10: the parsed selection `"3,1-2"` over 5 records is
`[0, 1, 2]`, which is non-empty. -/
theorem parse_indices_some_ne_nil_witness :
    parse_indices ("3,1-2".toList) 5 = some [0, 1, 2] ∧
      ([(0 : Int), 1, 2] ≠ []) :=
  ⟨by decide, parse_indices_some_ne_nil ("3,1-2".toList) 5 _ (by decide)⟩

/-! The retry engine. -/

theorem pow_sleeps_shift (i m : Nat) :
    (List.range (m + 1)).map (fun k => 2 ^ (i + k)) =
      2 ^ i :: (List.range m).map (fun k => 2 ^ (i + 1 + k)) := by
  rw [List.range_succ_eq_map]
  simp only [List.map_cons, List.map_map, Nat.add_zero]
  refine congrArg _ (List.map_congr_left fun k _ => ?_)
  simp only [Function.comp_apply]
  congr 1
  omega

theorem retryAux_spec {α : Type} (op : Nat → Except (List Char) α) (n : Nat) :
    ∀ fuel i, fuel + i = n →
      (retryAux op n fuel i).calls ≤ fuel ∧
      (1 ≤ fuel → 1 ≤ (retryAux op n fuel i).calls) ∧
      (retryAux op n fuel i).sleeps =
        (List.range ((retryAux op n fuel i).calls - 1)).map (fun k => 2 ^ (i + k)) ∧
      (∀ k, k < (retryAux op n fuel i).calls - 1 →
        ∃ e, op (i + k) = .error e ∧ is_retryable_error e = true) ∧
      (∀ a, (retryAux op n fuel i).result = some a →
        op (i + ((retryAux op n fuel i).calls - 1)) = .ok a) ∧
      ((retryAux op n fuel i).result = none → 1 ≤ fuel →
        ∃ e, op (i + ((retryAux op n fuel i).calls - 1)) = .error e ∧
          (is_retryable_error e = false ∨
            ¬(i + ((retryAux op n fuel i).calls - 1) < n - 1))) := by
  intro fuel
  induction fuel with
  | zero =>
    intro i _
    refine ⟨by simp [retryAux], fun h => absurd h (by omega), by simp [retryAux],
      ?_, ?_, ?_⟩
    · intro k hk; simp [retryAux] at hk
    · intro a ha; simp [retryAux] at ha
    · intro _ h; exact absurd h (by omega)
  | succ fuel ih =>
    intro i hinv
    cases hop : op i with
    | ok a =>
      have hred : retryAux op n (fuel + 1) i = ⟨some a, [], 1⟩ := by
        simp [retryAux, hop]
      rw [hred]
      dsimp only
      refine ⟨by omega, fun _ => le_refl 1, by simp, ?_, ?_, ?_⟩
      · intro k hk; simp at hk
      · intro a' ha'
        obtain rfl : a = a' := by simpa using ha'
        simpa using hop
      · intro hnone; simp at hnone
    | error e =>
      by_cases hc : i < n - 1 ∧ is_retryable_error e = true
      · have hfuel1 : 1 ≤ fuel := by omega
        obtain ⟨ih1, ih2, ih3, ih4, ih5, ih6⟩ := ih (i + 1) (by omega)
        have hcalls1 : 1 ≤ (retryAux op n fuel (i + 1)).calls := ih2 hfuel1
        have hred : retryAux op n (fuel + 1) i =
            ⟨(retryAux op n fuel (i + 1)).result,
              2 ^ i :: (retryAux op n fuel (i + 1)).sleeps,
              (retryAux op n fuel (i + 1)).calls + 1⟩ := by
          simp only [retryAux, hop]
          rw [if_pos hc]
        rw [hred]
        dsimp only
        refine ⟨by omega, fun _ => by omega, ?_, ?_, ?_, ?_⟩
        · obtain ⟨m, hm⟩ : ∃ m, (retryAux op n fuel (i + 1)).calls = m + 1 :=
            ⟨(retryAux op n fuel (i + 1)).calls - 1, by omega⟩
          rw [ih3, hm]
          simp only [Nat.add_sub_cancel]
          rw [pow_sleeps_shift]
        · intro k hk
          simp only [Nat.add_sub_cancel] at hk
          cases k with
          | zero => exact ⟨e, by simpa using hop, hc.2⟩
          | succ k' =>
            obtain ⟨e', he', hre'⟩ := ih4 k' (by omega)
            refine ⟨e', ?_, hre'⟩
            rw [show i + (k' + 1) = (i + 1) + k' by omega]
            exact he'
        · intro a ha
          have h5 := ih5 a ha
          rw [show i + ((retryAux op n fuel (i + 1)).calls + 1 - 1) =
            (i + 1) + ((retryAux op n fuel (i + 1)).calls - 1) by omega]
          exact h5
        · intro hnone _
          obtain ⟨e', he', hd⟩ := ih6 hnone hfuel1
          rw [show i + ((retryAux op n fuel (i + 1)).calls + 1 - 1) =
            (i + 1) + ((retryAux op n fuel (i + 1)).calls - 1) by omega]
          exact ⟨e', he', hd⟩
      · have hred : retryAux op n (fuel + 1) i = ⟨none, [], 1⟩ := by
          simp only [retryAux, hop]
          rw [if_neg hc]
        rw [hred]
        dsimp only
        refine ⟨by omega, fun _ => le_refl 1, by simp, ?_, ?_, ?_⟩
        · intro k hk; simp at hk
        · intro a ha; simp at ha
        · intro _ _
          refine ⟨e, by simpa using hop, ?_⟩
          by_cases hre : is_retryable_error e = true
          · right
            intro hlt
            exact hc ⟨by omega, hre⟩
          · left
            simpa using hre

/-- C3: the retry engine invokes the operation at most `n` times
(`DEFAULT_RETRY_ATTEMPTS`, default 3); it sleeps exactly `2 ^ k` seconds
after the `k`-th attempt for each non-final attempt taken (1s, 2s, 4s, …);
every attempt before the last one taken failed with a retryable error; when
it returns a value, that value is the first successful invocation's result;
and when it returns the no-result sentinel it does so because the last
invocation taken failed either non-retryably or on the final attempt —
never by propagating the failure. -/
theorem retry_with_backoff_behavior {α : Type} (op : Nat → Except (List Char) α)
    (n : Nat) :
    (retry_with_backoff op n).calls ≤ n ∧
    (retry_with_backoff op n).sleeps =
      (List.range ((retry_with_backoff op n).calls - 1)).map (fun k => 2 ^ k) ∧
    (∀ k, k < (retry_with_backoff op n).calls - 1 →
      ∃ e, op k = .error e ∧ is_retryable_error e = true) ∧
    (∀ a, (retry_with_backoff op n).result = some a →
      op ((retry_with_backoff op n).calls - 1) = .ok a) ∧
    ((retry_with_backoff op n).result = none → 1 ≤ n →
      ∃ e, op ((retry_with_backoff op n).calls - 1) = .error e ∧
        (is_retryable_error e = false ∨ (retry_with_backoff op n).calls = n)) := by
  obtain ⟨h1, h2, h3, h4, h5, h6⟩ := retryAux_spec op n n 0 (by omega)
  simp only [retry_with_backoff]
  refine ⟨h1, ?_, ?_, ?_, ?_⟩
  · rw [h3]
    exact List.map_congr_left (fun k _ => by rw [Nat.zero_add])
  · intro k hk
    simpa using h4 k hk
  · intro a ha
    simpa using h5 a ha
  · intro hnone h1n
    obtain ⟨e, he, hd⟩ := h6 hnone (by omega)
    refine ⟨e, by simpa using he, ?_⟩
    rcases hd with h | h
    · exact Or.inl h
    · right
      have := h2 (by omega)
      omega

/-- Witness for C3 at the specification's scenario: an operation that fails
twice with a retryable `503` error and then succeeds returns the success
value after three invocations, having slept 1s then 2s. -/
theorem retry_with_backoff_behavior_witness :
    (retry_with_backoff
        (fun i => if i < 2 then .error ("503 Service Unavailable".toList)
                  else .ok 42) 3).result = some 42 ∧
      (retry_with_backoff
        (fun i => if i < 2 then .error ("503 Service Unavailable".toList)
                  else .ok 42) 3).sleeps = [1, 2] ∧
      (retry_with_backoff
        (fun i => if i < 2 then .error ("503 Service Unavailable".toList)
                  else .ok 42) 3).calls = 3 ∧
      [1, 2] = (List.range (3 - 1)).map (fun k => 2 ^ k) :=
  ⟨by decide, by decide, by decide,
    by simpa [(by decide : (retry_with_backoff
        (fun i => if i < 2 then .error ("503 Service Unavailable".toList)
                  else .ok 42) 3).calls = 3)] using
      (retry_with_backoff_behavior
        (fun i => if i < 2 then .error ("503 Service Unavailable".toList)
                  else .ok 42) 3).2.1.symm⟩

/-! The content validator. -/

theorem byteLower_captchaMarker : captchaMarker.map byteLower = captchaMarker := by
  decide

/-- C4: the content validator never flags a file of at least
`MIN_VALID_PDF_SIZE` (100000) bytes — in particular never a file of exactly
100000 bytes; below that size it flags the file iff the lower-cased first
1024 bytes contain one of `<html`, `captcha`, `<!doctype`; and a 99999-byte
file whose first 1024 bytes contain the byte sequence `captcha` is always
flagged. -/
theorem is_captcha_spec (file : List Nat) :
    (MIN_VALID_PDF_SIZE ≤ file.length → is_captcha file = false) ∧
    (file.length = 100000 → is_captcha file = false) ∧
    (file.length < MIN_VALID_PDF_SIZE →
      (is_captcha file = true ↔
        (htmlMarker <:+: (file.take CAPTCHA_CHECK_BYTES).map byteLower ∨
          captchaMarker <:+: (file.take CAPTCHA_CHECK_BYTES).map byteLower ∨
          doctypeMarker <:+: (file.take CAPTCHA_CHECK_BYTES).map byteLower))) ∧
    (file.length = 99999 → captchaMarker <:+: file.take CAPTCHA_CHECK_BYTES →
      is_captcha file = true) := by
  have hbig : MIN_VALID_PDF_SIZE ≤ file.length → is_captcha file = false := by
    intro h
    simp only [is_captcha]
    rw [if_pos h]
  have hsmall : file.length < MIN_VALID_PDF_SIZE →
      (is_captcha file = true ↔
        (htmlMarker <:+: (file.take CAPTCHA_CHECK_BYTES).map byteLower ∨
          captchaMarker <:+: (file.take CAPTCHA_CHECK_BYTES).map byteLower ∨
          doctypeMarker <:+: (file.take CAPTCHA_CHECK_BYTES).map byteLower)) := by
    intro h
    simp only [is_captcha]
    rw [if_neg (by omega)]
    simp [Bool.or_eq_true, decide_eq_true_eq, or_assoc]
  refine ⟨hbig, fun h => hbig (by simp [MIN_VALID_PDF_SIZE, h]), hsmall, ?_⟩
  intro hlen hinf
  refine (hsmall (by simp [MIN_VALID_PDF_SIZE, hlen])).mpr (Or.inr (Or.inl ?_))
  have := hinf.map byteLower
  rwa [byteLower_captchaMarker] at this

/-- Witness for C4: a 99999-byte file starting with the bytes `captcha` is
flagged, and a 100000-byte file with the same prefix is not. -/
theorem is_captcha_spec_witness :
    is_captcha (captchaMarker ++ List.replicate 99992 37) = true ∧
      is_captcha (captchaMarker ++ List.replicate 99993 37) = false := by
  have hlen7 : captchaMarker.length = 7 := by decide
  constructor
  · have h1 : (captchaMarker ++ List.replicate 99992 37).length = 99999 := by
      simp only [List.length_append, List.length_replicate, hlen7]
    refine (is_captcha_spec (captchaMarker ++ List.replicate 99992 37)).2.2.2
      h1 ?_
    rw [List.take_append_eq_append_take,
      List.take_of_length_le (by rw [hlen7]; decide), List.take_replicate]
    exact ⟨[], List.replicate ((CAPTCHA_CHECK_BYTES - captchaMarker.length) ⊓ 99992) 37,
      by simp⟩
  · have h2 : (captchaMarker ++ List.replicate 99993 37).length = 100000 := by
      simp only [List.length_append, List.length_replicate, hlen7]
    exact (is_captcha_spec (captchaMarker ++ List.replicate 99993 37)).2.1 h2

/-! The record extractor. -/

theorem extract_records_no_cutoff (entries : List Entry) (maxAuthors : Nat) :
    extract_records entries none maxAuthors =
      entries.map (entry_record maxAuthors) := by
  induction entries with
  | nil => rfl
  | cons e es ih =>
    simp only [extract_records, List.filterMap_cons] at ih ⊢
    rw [ih, List.map_cons]

theorem extract_records_cutoff (entries : List Entry) (maxAuthors : Nat)
    (s : List Char) :
    extract_records entries (some s) maxAuthors =
      (entries.filter
        (fun e => !pyStrLt (e.published.take DATE_PREFIX_LENGTH) s)).map
        (entry_record maxAuthors) := by
  induction entries with
  | nil => rfl
  | cons e es ih =>
    simp only [extract_records, List.filterMap_cons, List.filter_cons] at ih ⊢
    by_cases h : pyStrLt (e.published.take DATE_PREFIX_LENGTH) s
    · simp [h, ih]
    · simp [h, ih]

/-- C5: the extractor truncates each published timestamp to its first 10
characters; with no `since` cutoff no entry is date-filtered; with a cutoff
`s` exactly the entries whose truncated date sorts lexicographically before
`s` are skipped; and every returned record's `published` field is the
10-character truncation of some entry's timestamp. -/
theorem extract_records_since_filter (entries : List Entry) (maxAuthors : Nat) :
    extract_records entries none maxAuthors =
      entries.map (entry_record maxAuthors) ∧
    (∀ s, extract_records entries (some s) maxAuthors =
      (entries.filter
        (fun e => !pyStrLt (e.published.take DATE_PREFIX_LENGTH) s)).map
        (entry_record maxAuthors)) ∧
    (∀ since, ∀ p ∈ extract_records entries since maxAuthors,
      ∃ e ∈ entries, p.published = e.published.take DATE_PREFIX_LENGTH) := by
  refine ⟨extract_records_no_cutoff entries maxAuthors,
    extract_records_cutoff entries maxAuthors, ?_⟩
  intro since p hp
  cases since with
  | none =>
    rw [extract_records_no_cutoff] at hp
    obtain ⟨e, he, rfl⟩ := List.mem_map.mp hp
    exact ⟨e, he, rfl⟩
  | some s =>
    rw [extract_records_cutoff] at hp
    obtain ⟨e, he, rfl⟩ := List.mem_map.mp hp
    exact ⟨e, (List.mem_filter.mp he).1, rfl⟩

/-- C6: the authors field of every extracted record is the first
`maxAuthors` names joined with `, `, with ` et al. (<total>)` appended
exactly when the true author count exceeds `maxAuthors` (the count shown is
the true total); a record of an entry without authors has the empty string. -/
theorem entry_record_authors (maxAuthors : Nat) (e : Entry) :
    (e.authors.length ≤ maxAuthors →
      (entry_record maxAuthors e).authors = joinSep ", ".toList e.authors) ∧
    (maxAuthors < e.authors.length →
      (entry_record maxAuthors e).authors =
        joinSep ", ".toList (e.authors.take maxAuthors) ++
          (" et al. (".toList ++ natDecimal e.authors.length ++ ")".toList)) ∧
    (e.authors = [] → (entry_record maxAuthors e).authors = []) := by
  refine ⟨?_, ?_, ?_⟩
  · intro h
    simp only [entry_record, author_display]
    rw [if_neg (by omega), List.take_of_length_le h]
  · intro h
    simp only [entry_record, author_display]
    rw [if_pos h]
    simp [List.append_assoc]
  · intro h
    simp [entry_record, author_display, h, joinSep]

/-- Witness for C6 at the specification's scenario: six authors displayed
with threshold 3 render as the first three names and ` et al. (6)` with the
true total. -/
theorem entry_record_authors_witness :
    (entry_record 3
      ⟨"2025-10-16T00:00:00Z".toList,
        ["A1".toList, "A2".toList, "A3".toList, "A4".toList, "A5".toList,
          "A6".toList],
        "T".toList, "L".toList, "S".toList⟩).authors =
      "A1, A2, A3 et al. (6)".toList := by
  have h := (entry_record_authors 3
    ⟨"2025-10-16T00:00:00Z".toList,
      ["A1".toList, "A2".toList, "A3".toList, "A4".toList, "A5".toList,
        "A6".toList],
      "T".toList, "L".toList, "S".toList⟩).2.1 (by decide)
  rw [h]
  decide

/-- C7: whenever the XML fetch fails and the retry engine gives up (returns
its `none` sentinel), `search` returns the empty record list — it never
raises. -/
theorem search_empty_on_fetch_failure (op : Nat → Except (List Char) (List Char))
    (n : Nat) (parseFeed : List Char → Option (List Entry))
    (since : Option (List Char)) (maxAuthors : Nat)
    (h : (retry_with_backoff op n).result = none) :
    search_model op n parseFeed since maxAuthors = .ok [] := by
  simp [search_model, h]

/-- Witness for C7: a fetch that always fails with a permanent `404` error
makes the retry engine give up at once, and the search returns the empty
list. -/
theorem search_empty_on_fetch_failure_witness :
    search_model (fun _ => .error ("404 Not Found".toList)) 3 (fun _ => none)
      none 3 = .ok [] :=
  search_empty_on_fetch_failure (fun _ => .error ("404 Not Found".toList)) 3
    (fun _ => none) none 3 (by decide)

/-! The per-item download state machine. -/

theorem download_aux_not_success_no_file (outcomes : Nat → FetchOutcome)
    (n : Nat) :
    ∀ fuel i file, fuel + i = n → 1 ≤ fuel →
      (download_aux outcomes n fuel i file).1 = .success ∨
      (download_aux outcomes n fuel i file).2 = none := by
  intro fuel
  induction fuel with
  | zero => intro i file _ h; exact absurd h (by omega)
  | succ fuel ih =>
    intro i file hinv _
    cases hout : outcomes i with
    | writes c =>
      by_cases hcap : is_captcha c = true
      · right; simp [download_aux, hout, hcap]
      · left; simp [download_aux, hout, hcap]
    | fails e leftover =>
      by_cases hc : i < n - 1 ∧ is_retryable_error e = true
      · have hred : download_aux outcomes n (fuel + 1) i file =
            download_aux outcomes n fuel (i + 1) none := by
          simp only [download_aux, hout]
          rw [if_pos hc]
        rw [hred]
        exact ih (i + 1) none (by omega) (by omega)
      · right
        simp only [download_aux, hout]
        rw [if_neg hc]

/-- C8: after a `failure` or `captcha` (blocked) outcome of the per-item
download, no file remains at the item's target path: a partially-written
file is deleted on every failed fetch before retrying or aborting, and a
fetched file flagged by the content validator is deleted before the item
finishes as blocked. -/
theorem download_no_file_after_failure (outcomes : Nat → FetchOutcome) (n : Nat)
    (hn : 1 ≤ n) (file₀ : Option (List Nat)) :
    ((download_model outcomes n file₀).1 = .failure →
      (download_model outcomes n file₀).2 = none) ∧
    ((download_model outcomes n file₀).1 = .captcha →
      (download_model outcomes n file₀).2 = none) := by
  have h := download_aux_not_success_no_file outcomes n n 0 file₀ (by omega)
    (by omega)
  simp only [download_model]
  constructor
  · intro hfail
    rcases h with hsucc | hnone
    · rw [hfail] at hsucc; exact absurd hsucc (by simp)
    · exact hnone
  · intro hcap
    rcases h with hsucc | hnone
    · rw [hcap] at hsucc; exact absurd hsucc (by simp)
    · exact hnone

/-- Witness for C8: an item whose fetches keep failing retryably with a
partial file left behind ends as a failure with no file at the target path,
even though a file was there before the attempt. -/
theorem download_no_file_after_failure_witness :
    (download_model (fun _ => .fails ("503 backend".toList) (some [80, 75])) 3
      (some [1])).2 = none :=
  (download_no_file_after_failure
    (fun _ => .fails ("503 backend".toList) (some [80, 75])) 3 (by omega)
    (some [1])).1 (by decide)

/-! The structured-output round trip. -/


theorem parseHexDigit_hexDigit : ∀ d, d < 16 → parseHexDigit (hexDigit d) = some d := by decide

theorem expectLit_append (lit rest : List Char) : expectLit lit (lit ++ rest) = some rest := by
  induction lit with
  | nil => rfl
  | cons c cs ih => simp [expectLit, ih]

theorem parseStringBody_unicode (q r : Nat) (hq : q < 16) (hr : r < 16) (X : List Char)
    (hv : 16 * q + r < 32) :
    parseStringBody ('\\' :: 'u' :: '0' :: '0' :: hexDigit q :: hexDigit r :: X) =
      (parseStringBody X).map (fun pr => (Char.ofNat (16 * q + r) :: pr.1, pr.2)) := by
  have h0 : parseHexDigit '0' = some 0 := by decide
  have hqq := parseHexDigit_hexDigit q hq
  have hrr := parseHexDigit_hexDigit r hr
  rw [parseStringBody.eq_def]
  simp [h0, hqq, hrr]
  rw [if_pos (by omega : q * 16 + r < 55296 ∨ 57343 < q * 16 + r)]
  rw [show q * 16 + r = 16 * q + r from by omega]

theorem parseStringBody_escape (v : List Char) : ∀ rest,
    parseStringBody (escapeList v ++ ('"' :: rest)) = some (v, rest) := by
  induction v with
  | nil =>
    intro rest
    rw [show escapeList [] ++ ('"' :: rest) = '"' :: rest from by simp [escapeList]]
    rw [parseStringBody.eq_def]
    simp
  | cons c v' ih =>
    intro rest
    simp only [escapeList, List.append_assoc]
    by_cases h1 : c = '"'
    · subst h1
      rw [show escapeChar '"' = ['\\', '"'] from by simp [escapeChar]]
      simp only [List.cons_append, List.nil_append]
      rw [parseStringBody.eq_def]
      simp [unescape1, ih]
    · by_cases h2 : c = '\\'
      · subst h2
        rw [show escapeChar '\\' = ['\\', '\\'] from by simp [escapeChar]]
        simp only [List.cons_append, List.nil_append]
        rw [parseStringBody.eq_def]
        simp [unescape1, ih]
      · by_cases h3 : c = '\n'
        · subst h3
          rw [show escapeChar '\n' = ['\\', 'n'] from by simp [escapeChar]]
          simp only [List.cons_append, List.nil_append]
          rw [parseStringBody.eq_def]
          simp [unescape1, ih]
        · by_cases h4 : c = '\t'
          · subst h4
            rw [show escapeChar '\t' = ['\\', 't'] from by simp [escapeChar]]
            simp only [List.cons_append, List.nil_append]
            rw [parseStringBody.eq_def]
            simp [unescape1, ih]
          · by_cases h5 : c = '\r'
            · subst h5
              rw [show escapeChar '\r' = ['\\', 'r'] from by simp [escapeChar]]
              simp only [List.cons_append, List.nil_append]
              rw [parseStringBody.eq_def]
              simp [unescape1, ih]
            · by_cases h6 : c = '\x08'
              · subst h6
                rw [show escapeChar '\x08' = ['\\', 'b'] from by simp [escapeChar]]
                simp only [List.cons_append, List.nil_append]
                rw [parseStringBody.eq_def]
                simp [unescape1, ih]
              · by_cases h7 : c = '\x0c'
                · subst h7
                  rw [show escapeChar '\x0c' = ['\\', 'f'] from by simp [escapeChar]]
                  simp only [List.cons_append, List.nil_append]
                  rw [parseStringBody.eq_def]
                  simp [unescape1, ih]
                · by_cases h8 : c.toNat < 32
                  · rw [show escapeChar c =
                        ['\\', 'u', '0', '0', hexDigit (c.toNat / 16),
                          hexDigit (c.toNat % 16)] from by
                      simp [escapeChar, h1, h2, h3, h4, h5, h6, h7, h8]]
                    simp only [List.cons_append, List.nil_append]
                    rw [parseStringBody_unicode (c.toNat / 16) (c.toNat % 16)
                      (by omega) (by omega) _ (by omega)]
                    rw [show 16 * (c.toNat / 16) + c.toNat % 16 = c.toNat from by omega]
                    rw [Char.ofNat_toNat, ih]
                    rfl
                  · rw [show escapeChar c = [c] from by
                      simp [escapeChar, h1, h2, h3, h4, h5, h6, h7, h8]]
                    simp only [List.cons_append, List.nil_append]
                    rw [parseStringBody.eq_def]
                    simp [h1, h2, h8, ih]

theorem parseField_ser (key v sep rest : List Char)
    (hkey : escapeList key = key) :
    parseField key sep (serField key v ++ (sep ++ rest)) = some (v, rest) := by
  have hdecomp : serField key v ++ (sep ++ rest) =
      ("    \"".toList ++ key ++ "\": \"".toList) ++
        (escapeList v ++ ('"' :: (sep ++ rest))) := by
    rw [show "    \"".toList = "    ".toList ++ ['"'] from rfl,
      show "\": \"".toList = ['"'] ++ (": ".toList ++ ['"']) from rfl]
    simp only [serField, serString, hkey, List.append_assoc, List.cons_append,
      List.singleton_append, List.nil_append]
  rw [hdecomp]
  simp only [parseField, expectLit_append, Option.some_bind,
    parseStringBody_escape, expectLit_append, Option.map_some']

theorem parsePaper_ser (p : Paper) (tail : List Char) :
    parsePaper (serPaper p ++ tail) = some (p, tail) := by
  have hdecomp : serPaper p ++ tail =
      "  \x7b\n".toList ++
        (serField "title".toList p.title ++ (",\n".toList ++
          (serField "authors".toList p.authors ++ (",\n".toList ++
            (serField "published".toList p.published ++ (",\n".toList ++
              (serField "link".toList p.link ++ (",\n".toList ++
                (serField "abstract".toList p.abstract ++
                  ("\n  \x7d".toList ++ tail)))))))))) := by
    simp only [serPaper, List.append_assoc]
  rw [hdecomp]
  simp only [parsePaper, expectLit_append, Option.some_bind]
  rw [parseField_ser "title".toList p.title ",\n".toList _ (by decide)]
  simp only [Option.some_bind]
  rw [parseField_ser "authors".toList p.authors ",\n".toList _ (by decide)]
  simp only [Option.some_bind]
  rw [parseField_ser "published".toList p.published ",\n".toList _ (by decide)]
  simp only [Option.some_bind]
  rw [parseField_ser "link".toList p.link ",\n".toList _ (by decide)]
  simp only [Option.some_bind]
  rw [parseField_ser "abstract".toList p.abstract "\n  \x7d".toList _ (by decide)]
  simp only [Option.map_some']


theorem length_serPapersRest (ps : List Paper) :
    ps.length ≤ (serPapersRest ps).length := by
  induction ps with
  | nil => simp [serPapersRest]
  | cons p ps' ih =>
    have hsep : (",\n".toList).length = 2 := by decide
    simp only [serPapersRest, List.length_cons, List.length_append]
    omega

theorem expectLit_close_self :
    expectLit "\n]".toList ("\n]".toList) = some [] := by decide

theorem parseMorePapers_ser (ps : List Paper) : ∀ fuel, ps.length < fuel →
    parseMorePapers fuel (serPapersRest ps ++ "\n]".toList) = some ps := by
  induction ps with
  | nil =>
    intro fuel hf
    obtain ⟨f', rfl⟩ : ∃ f', fuel = f' + 1 := ⟨fuel - 1, by omega⟩
    rw [show serPapersRest [] ++ "\n]".toList = "\n]".toList from by
      simp [serPapersRest]]
    rw [parseMorePapers]
    rw [expectLit_close_self]
    rfl
  | cons p ps' ih =>
    intro fuel hf
    obtain ⟨f', rfl⟩ : ∃ f', fuel = f' + 1 := ⟨fuel - 1, by omega⟩
    have hin : serPapersRest (p :: ps') ++ "\n]".toList =
        ',' :: '\n' :: (serPaper p ++ (serPapersRest ps' ++ "\n]".toList)) := by
      simp only [serPapersRest, List.append_assoc]
      rfl
    rw [hin, parseMorePapers]
    rw [show expectLit "\n]".toList
        (',' :: '\n' :: (serPaper p ++ (serPapersRest ps' ++ "\n]".toList))) = none from by
      rw [show "\n]".toList = ['\n', ']'] from rfl]
      rw [expectLit]
      rw [if_neg (by decide)]]
    rw [show (',' :: '\n' :: (serPaper p ++ (serPapersRest ps' ++ "\n]".toList))) =
      ",\n".toList ++ (serPaper p ++ (serPapersRest ps' ++ "\n]".toList)) from rfl]
    simp only [expectLit_append, Option.some_bind]
    rw [parsePaper_ser]
    simp only [Option.some_bind]
    rw [ih f' (by simpa using hf)]
    rfl

/-- C9: round-trip identity of the structured formatter — serializing any
record list with the `json` output style (`json.dumps(papers, indent=2,
ensure_ascii=False)`) and parsing the serialized text back yields a record
list field-for-field equal to the original. -/
theorem format_json_roundtrip (papers : List Paper) :
    parse_format_json (format_json papers) = some papers := by
  cases papers with
  | nil => rfl
  | cons p ps =>
    rw [format_json]
    rw [parse_format_json]
    rw [if_neg ?hne]
    case hne =>
      intro hcontra
      have := congrArg List.length hcontra
      simp only [List.length_append] at this
      have h2 : ("[]".toList).length = 2 := by decide
      have h3 : ("[\n".toList).length = 2 := by decide
      have h4 : ("\n]".toList).length = 2 := by decide
      omega
    rw [show "[\n".toList ++ serPaper p ++ serPapersRest ps ++ "\n]".toList =
      "[\n".toList ++ (serPaper p ++ (serPapersRest ps ++ "\n]".toList)) from by
      simp [List.append_assoc]]
    simp only [expectLit_append, Option.some_bind]
    rw [parsePaper_ser]
    simp only [Option.some_bind]
    rw [parseMorePapers_ser ps _ (by
      have := length_serPapersRest ps
      simp only [List.length_append]
      omega)]
    rfl

/-- Witness for C9 on a concrete record list exercising escapes, runs of
spaces and non-ASCII text. -/
theorem format_json_roundtrip_witness :
    parse_format_json (format_json
      [⟨"Caf\u00e9 \"x\"\n".toList, "A, B et al. (9)".toList,
        "2025-10-16".toList, "http://arxiv.org/abs/1".toList,
        "line1\tline2\\".toList⟩]) =
      some [⟨"Caf\u00e9 \"x\"\n".toList, "A, B et al. (9)".toList,
        "2025-10-16".toList, "http://arxiv.org/abs/1".toList,
        "line1\tline2\\".toList⟩] :=
  format_json_roundtrip
    [⟨"Caf\u00e9 \"x\"\n".toList, "A, B et al. (9)".toList,
      "2025-10-16".toList, "http://arxiv.org/abs/1".toList,
      "line1\tline2\\".toList⟩]

end Xiv
